import Mathlib

/-!
Shallow embedding of the answer-resolution engine of
`qanta/ingestion/answer_mapping.py` together with theorems checking the
natural-language specification against it.

Modelling conventions:
* Python strings are Lean `String`s; `.lower()` is modelled on the ASCII
  fragment (`pyLower`), `.strip()` by `pyStrip`, `re.sub(r'\s+', ' ', s)`
  by `collapseWs`.
* `unidecode` is an external library function and enters every definition
  as an opaque parameter `ud : String → String`.
* Python `dict`s are association lists in insertion order; lookup takes
  the most recent binding (`dictGet`), insertion appends (`dictSet`),
  matching `d[k] = v` semantics.
* Python `set`s of strings are `List String` values in iteration order;
  cloning a set deduplicates (`List.dedup`).
-/

/-- Association-list model of a Python dict: lookup returns the most
recently inserted binding for the key. -/
def dictGet (m : List (String × String)) (k : String) : Option String :=
  (m.reverse.find? (fun p => p.1 == k)).map Prod.snd

/-- Insertion `d[k] = v` appends the binding, so it wins later lookups. -/
def dictSet (m : List (String × String)) (k v : String) : List (String × String) :=
  m ++ [(k, v)]

/-- ASCII lower-casing of a single character, as Python `str.lower` acts
on ASCII input (Lean core `Char.toLower` has exactly this behaviour). -/
def pyLower (s : String) : String :=
  String.mk (s.data.map Char.toLower)

/-- Python `str.strip`: drop leading and trailing whitespace. -/
def pyStrip (l : List Char) : List Char :=
  ((l.dropWhile Char.isWhitespace).reverse.dropWhile Char.isWhitespace).reverse

/-- Helper for `collapseWs`: the flag records whether the previous
character was whitespace (so it was already replaced by a space). -/
def collapseWsAux : Bool → List Char → List Char
  | _, [] => []
  | prevWs, c :: t =>
    if c.isWhitespace then
      if prevWs then collapseWsAux true t else ' ' :: collapseWsAux true t
    else c :: collapseWsAux false t

/-- Python `re.sub(r'\s+', ' ', s)`: collapse each whitespace run to one
space. -/
def collapseWs (l : List Char) : List Char :=
  collapseWsAux false l

/-- The formatting applied to each candidate before lookup (line 62):
`re.sub(r'\s+', ' ', rule_func(raw_ans).strip()).strip()`. -/
def fmtAns (s : String) : String :=
  String.mk (pyStrip (collapseWs (pyStrip s.data)))

/-- Python `s.replace(' ', '_')` as used by `try_match`. -/
def spaceToUnderscore (s : String) : String :=
  String.mk (s.data.map (fun c => if c = ' ' then '_' else c))

/-- Lookup helper `try_match` (lines 295-302): try the literal string,
then the string with spaces replaced by underscores. -/
def try_match (ansText : String) (titleMap : List (String × String)) : Option String :=
  match dictGet titleMap ansText with
  | some v => some v
  | none => dictGet titleMap (spaceToUnderscore ansText)

/-- Title lookup `exact_titles` (line 28). -/
def exact_titles (wikiTitles : List String) : List (String × String) :=
  wikiTitles.map (fun t => (t, t))

/-- Title lookup `unicode_titles` (line 29). -/
def unicode_titles (ud : String → String) (wikiTitles : List String) : List (String × String) :=
  wikiTitles.map (fun t => (ud t, t))

/-- Title lookup `lower_titles` (line 30). -/
def lower_titles (wikiTitles : List String) : List (String × String) :=
  wikiTitles.map (fun t => (pyLower t, t))

/-- Title lookup `lower_unicode_titles` (line 31). -/
def lower_unicode_titles (ud : String → String) (wikiTitles : List String) : List (String × String) :=
  wikiTitles.map (fun t => (ud (pyLower t), t))

/-- Redirect lookup `exact_wiki_redirects` (line 33). -/
def exact_wiki_redirects (reds : List (String × String)) : List (String × String) :=
  reds.map (fun p => (p.1, p.2))

/-- Redirect lookup `unicode_wiki_redirects` (line 34). -/
def unicode_wiki_redirects (ud : String → String) (reds : List (String × String)) : List (String × String) :=
  reds.map (fun p => (ud p.1, p.2))

/-- Redirect lookup `lower_wiki_redirects` (line 35). -/
def lower_wiki_redirects (reds : List (String × String)) : List (String × String) :=
  reds.map (fun p => (pyLower p.1, p.2))

/-- Redirect lookup `lower_unicode_wiki_redirects` (line 36). -/
def lower_unicode_wiki_redirects (ud : String → String) (reds : List (String × String)) : List (String × String) :=
  reds.map (fun p => (ud (pyLower p.1), p.2))

/-- The eight-tier lookup of a single formatted candidate, mirroring the
cascade of `try_match` calls at lines 69-107: each tier assigns and
`continue`s, so the candidate's result is the first tier that hits. -/
def lookupCandidate (ud : String → String) (titles : List String)
    (reds : List (String × String)) (ruleAns : String) : Option String :=
  match try_match ruleAns (exact_titles titles) with
  | some m => some m
  | none =>
  match try_match ruleAns (exact_wiki_redirects reds) with
  | some m => some m
  | none =>
  match try_match ruleAns (unicode_titles ud titles) with
  | some m => some m
  | none =>
  match try_match ruleAns (unicode_wiki_redirects ud reds) with
  | some m => some m
  | none =>
  match try_match (pyLower ruleAns) (lower_titles titles) with
  | some m => some m
  | none =>
  match try_match (pyLower ruleAns) (lower_wiki_redirects reds) with
  | some m => some m
  | none =>
  match try_match (pyLower ruleAns) (lower_unicode_titles ud titles) with
  | some m => some m
  | none => try_match (pyLower ruleAns) (lower_unicode_wiki_redirects ud reds)

/-- The eight tier results of a formatted candidate, in the priority
order the specification states. -/
def tier_results (ud : String → String) (titles : List String)
    (reds : List (String × String)) (ruleAns : String) : List (Option String) :=
  [try_match ruleAns (exact_titles titles),
   try_match ruleAns (exact_wiki_redirects reds),
   try_match ruleAns (unicode_titles ud titles),
   try_match ruleAns (unicode_wiki_redirects ud reds),
   try_match (pyLower ruleAns) (lower_titles titles),
   try_match (pyLower ruleAns) (lower_wiki_redirects reds),
   try_match (pyLower ruleAns) (lower_unicode_titles ud titles),
   try_match (pyLower ruleAns) (lower_unicode_wiki_redirects ud reds)]

/-- First `some` element of a list of optional results. -/
def firstHit : List (Option String) → Option String
  | [] => none
  | some v :: _ => some v
  | none :: rest => firstHit rest

/-- Body of the candidate loop (lines 61-107): format the candidate, run
the tiered lookup, and on a hit assign `answer_map[original_ans] = m`
(the `continue` statements skip only the remaining tiers, so the loop
then proceeds to the next candidate). -/
def processCand (ud : String → String) (titles : List String)
    (reds : List (String × String)) (ruleFunc : String → String)
    (origAns : String) (am : List (String × String)) (rawAns : String) :
    List (String × String) :=
  match lookupCandidate ud titles reds (fmtAns (ruleFunc rawAns)) with
  | some m => dictSet am origAns m
  | none => am

/-- One match-rule pass (lines 60-107): iterate over every entry of
`expansion_answer_map` and every candidate of that entry. -/
def stepMatchRule (ud : String → String) (titles : List String)
    (reds : List (String × String)) (eam : List (String × List String))
    (ruleFunc : String → String) (am : List (String × String)) :
    List (String × String) :=
  eam.foldl (fun acc e => e.2.foldl (processCand ud titles reds ruleFunc e.1) acc) am

/-- Python `set.add` on the candidate set, modelled with insertion order. -/
def addCand (cs : List String) (c : String) : List String :=
  if c ∈ cs then cs else cs ++ [c]

/-- Seeding of `expansion_answer_map` (lines 46-48): every answer starts
with itself as its only candidate. -/
def eamInit (unm : List String) : List (String × List String) :=
  unm.map (fun a => (a, [a]))

/-- One expansion rule (lines 52-54): for each answer, add every stripped
expansion the rule produces to that answer's candidate set. -/
def applyExpansion (rule : String → List String) (eam : List (String × List String)) :
    List (String × List String) :=
  eam.map (fun e => (e.1, ((rule e.1).map (fun x => String.mk (pyStrip x.data))).foldl addCand e.2))

/-- Build `expansion_answer_map` by folding all expansion rules. -/
def buildEam (rules : List (String × (String → List String))) (unm : List String) :
    List (String × List String) :=
  rules.foldl (fun eam r => applyExpansion r.2 eam) (eamInit unm)

/-- The match-rule loop (lines 56-112): after each pass the local
unmapped set drops every key now present in the answer map. -/
def runPasses (ud : String → String) (titles : List String)
    (reds : List (String × String)) (eam : List (String × List String)) :
    List (String × (String → String)) → List (String × String) → List String →
    List (String × String) × List String
  | [], am, unm => (am, unm)
  | r :: rs, am, unm =>
    let am2 := stepMatchRule ud titles reds eam r.2 am
    runPasses ud titles reds eam rs am2 (unm.filter (fun a => (dictGet am2 a).isNone))

/-- The Mapping Engine `mapping_rules_to_answer_map` (lines 23-117).
Line 41 clones the caller's set; the clone of a Python set is its
deduplicated element list. -/
def mapping_rules_to_answer_map (ud : String → String)
    (expansionRules : List (String × (String → List String)))
    (matchRules : List (String × (String → String)))
    (wikiTitles : List String) (wikiRedirectsSource : List (String × String))
    (unmappedAnswers : List String) :
    List (String × String) × List String :=
  let localUnm := unmappedAnswers.dedup
  let eam := buildEam expansionRules localUnm
  runPasses ud wikiTitles wikiRedirectsSource eam matchRules [] localUnm

/-- Heap of mutable Python set objects, used to express which object the
engine's in-place updates (`-=`) act on. A reference is an index. -/
structure SetStore where
  cells : List (List String)

/-- Dereference a set object. -/
def SetStore.read (st : SetStore) (r : Nat) : List String :=
  (st.cells.getD r [])

/-- In-place update of a set object. -/
def SetStore.write (st : SetStore) (r : Nat) (v : List String) : SetStore :=
  ⟨st.cells.set r v⟩

/-- Allocate a fresh set object, returning its reference. -/
def SetStore.alloc (st : SetStore) (v : List String) : SetStore × Nat :=
  (⟨st.cells ++ [v]⟩, st.cells.length)

/-- The match-rule loop acting on the store: each pass performs
`unmapped_answers -= set(answer_map.keys())` in place on the engine's
local set object. -/
def runPassesSt (ud : String → String) (titles : List String)
    (reds : List (String × String)) (eam : List (String × List String))
    (localRef : Nat) :
    List (String × (String → String)) → List (String × String) → SetStore →
    List (String × String) × SetStore
  | [], am, st => (am, st)
  | r :: rs, am, st =>
    let am2 := stepMatchRule ud titles reds eam r.2 am
    runPassesSt ud titles reds eam localRef rs am2
      (st.write localRef ((st.read localRef).filter (fun a => (dictGet am2 a).isNone)))

/-- Store-level rendering of `mapping_rules_to_answer_map`: the caller
passes a reference to its unmapped-answers set; line 41 rebinds the local
name to a freshly allocated clone, and all later in-place updates hit the
clone. -/
def mapping_rules_to_answer_map_st (ud : String → String)
    (expansionRules : List (String × (String → List String)))
    (matchRules : List (String × (String → String)))
    (wikiTitles : List String) (wikiRedirectsSource : List (String × String))
    (st : SetStore) (callerRef : Nat) :
    List (String × String) × SetStore :=
  let cloned := st.alloc ((st.read callerRef).dedup)
  let eam := buildEam expansionRules (cloned.1.read cloned.2)
  runPassesSt ud wikiTitles wikiRedirectsSource eam cloned.2 matchRules [] cloned.1

/-- Substring test, Python `pat in s` on the character lists. -/
def hasSub (pat : List Char) : List Char → Bool
  | [] => pat.isEmpty
  | c :: t => pat.isPrefixOf (c :: t) || hasSub pat t

/-- Helper for `replAll` with structural fuel (the fuel starts at the
haystack length, which bounds the number of steps). -/
def replAllAux (pat rep : List Char) : Nat → List Char → List Char
  | 0, hay => hay
  | _ + 1, [] => []
  | fuel + 1, c :: t =>
    if pat ≠ [] ∧ pat.isPrefixOf (c :: t) then
      rep ++ replAllAux pat rep fuel ((c :: t).drop pat.length)
    else c :: replAllAux pat rep fuel t

/-- Python `s.replace(pat, rep)`: replace non-overlapping occurrences left
to right. -/
def replAll (pat rep hay : List Char) : List Char :=
  replAllAux pat rep hay.length hay

/-- Expansion rule `the_rule` (lines 156-161), translated verbatim: note
it operates on the lower-cased answer in both branches, and the second
branch lower-cases again (`'the ' + l_ans.lower()`). -/
def the_rule (ans : String) : List String :=
  let l_ans := pyLower ans
  if hasSub "the".data l_ans.data then
    [String.mk (replAll "the".data [] l_ans.data)]
  else
    ["the " ++ pyLower l_ans]

/-- Statement of the amended the-toggle claim in the specification's own
words: when the lower-cased answer contains "the", produce the
lower-cased answer with all occurrences of "the" removed; otherwise
produce the lower-cased answer prefixed with "the ". -/
def the_rule_amended_spec (ans : String) : List String :=
  if hasSub "the".data (pyLower ans).data then
    [String.mk (replAll "the".data [] (pyLower ans).data)]
  else
    ["the " ++ pyLower ans]

/-- Match-rule formatter `remove_parens` (lines 228-229). -/
def remove_parens (text : String) : String :=
  String.mk (text.data.filter (fun c => !(c == '(') && !(c == ')')))

/-- Redirect reader `read_wiki_redirects` (lines 384-396) over the parsed
csv rows, returning the retained lookup together with the count of
dropped rows that the function logs. Processing a row either inserts
(target present in the title set) or increments the counter; the
function always returns, it raises nothing. -/
def read_wiki_redirects (wikiTitles : List String) :
    List (String × String) → List (String × String) × Nat
  | [] => ([], 0)
  | (s, t) :: rest =>
    let acc := read_wiki_redirects wikiTitles rest
    if t ∈ wikiTitles then ((s, t) :: acc.1, acc.2)
    else (acc.1, acc.2 + 1)

/-- Question record with the fields `unmapped_to_mapped_questions`
reads, plus the `page` field it assigns. -/
structure Question where
  answer : String
  qanta_id : Nat
  proto_id : Option String
  qdb_id : Option String
  fold : String
  text : String
  page : Option String
deriving DecidableEq, Repr

/-- Per-question audit record written into `match_report`. -/
structure MatchRecord where
  result : String
  annotated_error : Option String
  automatic_error : Option String
  annotated_page : Option String
  automatic_page : Option String
deriving DecidableEq, Repr

/-- Return value of `unmapped_to_mapped_questions`; `questions` carries
the in-place `q['page']` assignments the loop performs. -/
structure MappedResult where
  train_unmatched : List Question
  test_unmatched : List Question
  match_report : List (Nat × MatchRecord)
  questions : List Question
deriving DecidableEq, Repr

/-- One iteration of the reconciliation loop (lines 317-375): compute the
audit record and the (possibly page-assigned) question. `pa` models the
`PageAssigner.maybe_assign` capability, an opaque external collaborator. -/
def processQuestion (pa : Question → Option String × Option String)
    (am : List (String × String)) (q : Question) : MatchRecord × Question :=
  match (pa q).1, dictGet am q.answer with
  | none, none =>
    (⟨"none", (pa q).2, none, none, none⟩, q)
  | some p, none =>
    (⟨"annotated", (pa q).2, none, some p, none⟩, { q with page := some p })
  | none, some p =>
    (⟨"automatic", (pa q).2, none, none, some p⟩, { q with page := some p })
  | some p1, some p2 =>
    if p1 = p2 then
      (⟨"annotated+automatic", (pa q).2, none, some p1, some p2⟩, { q with page := some p2 })
    else
      (⟨"disagree", (pa q).2, none, some p1, some p2⟩, { q with page := some p1 })

/-- Reconciliation layer `unmapped_to_mapped_questions` (lines 313-381).
The training folds `gtf` and `btf` model the constants
`GUESSER_TRAIN_FOLD` and `BUZZER_TRAIN_FOLD` imported from outside the
engine module. -/
def unmapped_to_mapped_questions (pa : Question → Option String × Option String)
    (gtf btf : String) (am : List (String × String)) :
    List Question → MappedResult
  | [] => ⟨[], [], [], []⟩
  | q :: qs =>
    let step := processQuestion pa am q
    let rest := unmapped_to_mapped_questions pa gtf btf am qs
    { train_unmatched :=
        (if step.1.result = "none" ∧ (q.fold = gtf ∨ q.fold = btf) then [step.2] else [])
          ++ rest.train_unmatched
      test_unmatched :=
        (if step.1.result = "none" ∧ ¬(q.fold = gtf ∨ q.fold = btf) then [step.2] else [])
          ++ rest.test_unmatched
      match_report := (q.qanta_id, step.1) :: rest.match_report
      questions := step.2 :: rest.questions }

/-- Lookup after insertion: the inserted binding answers its own key,
other keys are unaffected. -/
theorem dictGet_dictSet (m : List (String × String)) (k v q : String) :
    dictGet (dictSet m k v) q = if k = q then some v else dictGet m q := by
  unfold dictGet dictSet
  rw [List.reverse_append]
  simp only [List.reverse_cons, List.reverse_nil, List.nil_append, List.singleton_append]
  by_cases h : k = q
  · rw [List.find?_cons_of_pos _ (by simpa using h), if_pos h]
    rfl
  · rw [List.find?_cons_of_neg _ (by simpa using h), if_neg h]

/-- A successful lookup exhibits a binding in the association list. -/
theorem dictGet_mem {m : List (String × String)} {k v : String}
    (h : dictGet m k = some v) : (k, v) ∈ m := by
  unfold dictGet at h
  cases hf : List.find? (fun p => p.1 == k) m.reverse with
  | none => rw [hf] at h; cases h
  | some p =>
    rw [hf] at h
    have hp : p ∈ m.reverse := List.mem_of_find?_eq_some hf
    have hk : p.1 = k := by simpa using List.find?_some hf
    have hv : p.2 = v := by cases h; rfl
    have : p = (k, v) := by
      cases p
      simp only [Prod.mk.injEq]
      exact ⟨hk, hv⟩
    rw [← this]
    exact List.mem_reverse.mp hp

/-- Fold preservation: a property preserved by every step is preserved by
the fold. -/
theorem foldl_pres {α β : Type} {P : α → Prop} {f : α → β → α}
    (hf : ∀ a b, P a → P (f a b)) : ∀ (l : List β) (a : α), P a → P (l.foldl f a)
  | [], _, h => h
  | b :: l, a, h => foldl_pres hf l (f a b) (hf a b h)

/-- Fold preservation where the step hypothesis may use membership of the
element in the folded list. -/
theorem foldl_pres_mem {α β : Type} {P : α → Prop} :
    ∀ (l : List β) (f : α → β → α),
      (∀ a b, b ∈ l → P a → P (f a b)) → ∀ (a : α), P a → P (l.foldl f a)
  | [], _, _, _, h => h
  | b :: l, f, hf, a, h =>
    foldl_pres_mem l f (fun a2 b2 hb => hf a2 b2 (List.mem_cons_of_mem _ hb)) (f a b)
      (hf a b (List.mem_cons_self _ _) h)

/-- The lookup cascade of lines 69-107 computes the first hit of the
eight tier results taken in the specified priority order. -/
theorem lookupCandidate_eq_firstHit (ud : String → String) (titles : List String)
    (reds : List (String × String)) (c : String) :
    lookupCandidate ud titles reds c = firstHit (tier_results ud titles reds c) := by
  simp only [lookupCandidate, tier_results]
  repeat' split
  all_goals cases hLast : try_match (pyLower c) (lower_unicode_wiki_redirects ud reds) <;>
    simp_all [firstHit]

/-- A resolved value is a canonical title or a redirect target. -/
def titleOrRedirect (titles : List String) (reds : List (String × String)) (v : String) : Prop :=
  v ∈ titles ∨ ∃ s, (s, v) ∈ reds

/-- Values of every title lookup view are canonical titles. -/
theorem mem_titleMap_snd {g : String → String} {titles : List String} {kk v : String}
    (h : (kk, v) ∈ titles.map (fun t => (g t, t))) : v ∈ titles := by
  rcases List.mem_map.mp h with ⟨t, ht, hEq⟩
  cases hEq
  exact ht

/-- Values of every redirect lookup view are redirect targets. -/
theorem mem_redMap_snd {g : String → String} {reds : List (String × String)} {kk v : String}
    (h : (kk, v) ∈ reds.map (fun p => (g p.1, p.2))) : ∃ s, (s, v) ∈ reds := by
  rcases List.mem_map.mp h with ⟨p, hp, hEq⟩
  cases hEq
  exact ⟨p.1, hp⟩

/-- A successful `try_match` exhibits a binding of the consulted view. -/
theorem try_match_mem {d : List (String × String)} {k v : String}
    (h : try_match k d = some v) : ∃ kk, (kk, v) ∈ d := by
  unfold try_match at h
  cases h1 : dictGet d k with
  | some w => rw [h1] at h; cases h; exact ⟨k, dictGet_mem h1⟩
  | none => rw [h1] at h; exact ⟨_, dictGet_mem h⟩

/-- A hit of the eight-tier lookup yields a canonical title or redirect
target. -/
theorem lookupCandidate_value {ud : String → String} {titles : List String}
    {reds : List (String × String)} {c v : String}
    (h : lookupCandidate ud titles reds c = some v) : titleOrRedirect titles reds v := by
  rw [lookupCandidate_eq_firstHit] at h
  simp only [tier_results, exact_titles, unicode_titles, lower_titles, lower_unicode_titles,
    exact_wiki_redirects, unicode_wiki_redirects, lower_wiki_redirects,
    lower_unicode_wiki_redirects] at h
  have step : ∀ (o : Option String) (l : List (Option String)),
      firstHit (o :: l) = some v → o = some v ∨ firstHit l = some v := by
    intro o l hh
    cases o with
    | some w => left; simpa [firstHit] using hh
    | none => right; simpa [firstHit] using hh
  have titleCase : ∀ {s : String} {g : String → String},
      try_match s (titles.map (fun t => (g t, t))) = some v →
        titleOrRedirect titles reds v := by
    intro s g hm
    rcases try_match_mem hm with ⟨kk, hkk⟩
    exact Or.inl (mem_titleMap_snd hkk)
  have redCase : ∀ {s : String} {g : String → String},
      try_match s (reds.map (fun p => (g p.1, p.2))) = some v →
        titleOrRedirect titles reds v := by
    intro s g hm
    rcases try_match_mem hm with ⟨kk, hkk⟩
    exact Or.inr (mem_redMap_snd hkk)
  rcases step _ _ h with h1 | h
  · exact titleCase h1
  rcases step _ _ h with h2 | h
  · exact redCase (g := fun x => x) h2
  rcases step _ _ h with h3 | h
  · exact titleCase h3
  rcases step _ _ h with h4 | h
  · exact redCase (g := fun x => ud x) h4
  rcases step _ _ h with h5 | h
  · exact titleCase h5
  rcases step _ _ h with h6 | h
  · exact redCase (g := fun x => pyLower x) h6
  rcases step _ _ h with h7 | h
  · exact titleCase h7
  rcases step _ _ h with h8 | h
  · exact redCase (g := fun x => ud (pyLower x)) h8
  simp [firstHit] at h

/-- Processing one candidate never deletes a key of the answer map. -/
theorem processCand_keys_mono {ud : String → String} {titles : List String}
    {reds : List (String × String)} {ruleFunc : String → String}
    {origAns : String} {am : List (String × String)} {rawAns k : String}
    (h : (dictGet am k).isSome = true) :
    (dictGet (processCand ud titles reds ruleFunc origAns am rawAns) k).isSome = true := by
  unfold processCand
  cases lookupCandidate ud titles reds (fmtAns (ruleFunc rawAns)) with
  | none => exact h
  | some m =>
    rw [dictGet_dictSet]
    by_cases hk : origAns = k
    · rw [if_pos hk]; rfl
    · rw [if_neg hk]; exact h

/-- A match-rule pass never deletes a key of the answer map. -/
theorem stepMatchRule_keys_mono {ud : String → String} {titles : List String}
    {reds : List (String × String)} {eam : List (String × List String)}
    {ruleFunc : String → String} {am : List (String × String)} {k : String}
    (h : (dictGet am k).isSome = true) :
    (dictGet (stepMatchRule ud titles reds eam ruleFunc am) k).isSome = true := by
  unfold stepMatchRule
  refine foldl_pres (P := fun d => (dictGet d k).isSome = true) ?_ eam am h
  intro a e ha
  exact foldl_pres (P := fun d => (dictGet d k).isSome = true)
    (fun a2 b2 h2 => processCand_keys_mono h2) e.2 a ha

/-- The whole match-rule loop never deletes a key of the answer map. -/
theorem runPasses_keys_mono {ud : String → String} {titles : List String}
    {reds : List (String × String)} {eam : List (String × List String)} :
    ∀ (mrs : List (String × (String → String))) (am : List (String × String))
      (unm : List String) (k : String), (dictGet am k).isSome = true →
      (dictGet (runPasses ud titles reds eam mrs am unm).1 k).isSome = true
  | [], _, _, _, h => h
  | _ :: mrs, am, unm, k, h =>
    runPasses_keys_mono mrs _ _ k (stepMatchRule_keys_mono h)

/-- Splitting the match-rule list splits the loop into two stages run in
sequence. -/
theorem runPasses_append (ud : String → String) (titles : List String)
    (reds : List (String × String)) (eam : List (String × List String)) :
    ∀ (mrs1 mrs2 : List (String × (String → String))) (am : List (String × String))
      (unm : List String),
      runPasses ud titles reds eam (mrs1 ++ mrs2) am unm =
        runPasses ud titles reds eam mrs2
          (runPasses ud titles reds eam mrs1 am unm).1
          (runPasses ud titles reds eam mrs1 am unm).2
  | [], _, _, _ => rfl
  | _ :: mrs1, mrs2, am, unm => by
    simp only [List.cons_append, runPasses]
    exact runPasses_append ud titles reds eam mrs1 mrs2 _ _

/-- Characterization of the residual unmapped set: provided the incoming
unmapped set is disjoint from the answer map's keys (true initially, the
map starts empty), membership after the loop is membership before it
minus the final key set. -/
theorem runPasses_unm_mem (ud : String → String) (titles : List String)
    (reds : List (String × String)) (eam : List (String × List String))
    (mrs : List (String × (String → String))) :
    ∀ (am : List (String × String)) (unm : List String),
      (∀ a ∈ unm, dictGet am a = none) →
      ∀ a, a ∈ (runPasses ud titles reds eam mrs am unm).2 ↔
        (a ∈ unm ∧ dictGet (runPasses ud titles reds eam mrs am unm).1 a = none) := by
  induction mrs with
  | nil =>
    intro am unm hc a
    simp only [runPasses]
    exact ⟨fun h => ⟨h, hc a h⟩, fun h => h.1⟩
  | cons r mrs ih =>
    intro am unm hc a
    simp only [runPasses]
    have hc2 : ∀ b ∈ unm.filter
        (fun x => (dictGet (stepMatchRule ud titles reds eam r.2 am) x).isNone),
        dictGet (stepMatchRule ud titles reds eam r.2 am) b = none := by
      intro b hb
      have hb2 := (List.mem_filter.mp hb).2
      simpa [Option.isNone_iff_eq_none] using hb2
    rw [ih _ _ hc2 a]
    constructor
    · rintro ⟨hmem, hfin⟩
      exact ⟨(List.mem_filter.mp hmem).1, hfin⟩
    · rintro ⟨hmem, hfin⟩
      refine ⟨List.mem_filter.mpr ⟨hmem, ?_⟩, hfin⟩
      cases hget : dictGet (stepMatchRule ud titles reds eam r.2 am) a with
      | none => simp
      | some w =>
        have hsome := @runPasses_keys_mono ud titles reds eam mrs
          (stepMatchRule ud titles reds eam r.2 am)
          (unm.filter (fun x => (dictGet (stepMatchRule ud titles reds eam r.2 am) x).isNone))
          a (by simp [hget])
        rw [hfin] at hsome
        cases hsome

/-- The keys of the expansion answer map are exactly the answers it was
seeded with: expansion only adds candidates, never keys. -/
theorem buildEam_fst (rules : List (String × (String → List String))) (unm : List String) :
    (buildEam rules unm).map Prod.fst = unm := by
  unfold buildEam
  refine foldl_pres (P := fun eam => eam.map Prod.fst = unm) ?_ rules (eamInit unm) ?_
  · intro eam r h
    simpa [applyExpansion, List.map_map, Function.comp_def] using h
  · simp [eamInit, List.map_map, Function.comp_def]

/-- Every binding a match-rule pass adds keys an answer of the expansion
map and maps it to a canonical title or redirect target. -/
theorem stepMatchRule_values {ud : String → String} {titles : List String}
    {reds : List (String × String)} {eam : List (String × List String)}
    {ruleFunc : String → String} {am : List (String × String)}
    (h : ∀ p ∈ am, p.1 ∈ eam.map Prod.fst ∧ titleOrRedirect titles reds p.2) :
    ∀ p ∈ stepMatchRule ud titles reds eam ruleFunc am,
      p.1 ∈ eam.map Prod.fst ∧ titleOrRedirect titles reds p.2 := by
  unfold stepMatchRule
  refine foldl_pres_mem (P := fun d => ∀ p ∈ d,
    p.1 ∈ eam.map Prod.fst ∧ titleOrRedirect titles reds p.2) eam _ ?_ am h
  intro acc e he hacc
  refine foldl_pres (P := fun d => ∀ p ∈ d,
    p.1 ∈ eam.map Prod.fst ∧ titleOrRedirect titles reds p.2) ?_ e.2 acc hacc
  intro a2 raw ha2 p hp
  unfold processCand at hp
  cases hl : lookupCandidate ud titles reds (fmtAns (ruleFunc raw)) with
  | none =>
    rw [hl] at hp
    exact ha2 p hp
  | some m =>
    rw [hl] at hp
    unfold dictSet at hp
    rcases List.mem_append.mp hp with h1 | h1
    · exact ha2 p h1
    · have hpe : p = (e.1, m) := by simpa using h1
      subst hpe
      exact ⟨List.mem_map.mpr ⟨e, he, rfl⟩, lookupCandidate_value hl⟩

/-- The invariant of `stepMatchRule_values` is maintained by the whole
match-rule loop. -/
theorem runPasses_values {ud : String → String} {titles : List String}
    {reds : List (String × String)} {eam : List (String × List String)} :
    ∀ (mrs : List (String × (String → String))) (am : List (String × String))
      (unm : List String),
      (∀ p ∈ am, p.1 ∈ eam.map Prod.fst ∧ titleOrRedirect titles reds p.2) →
      ∀ p ∈ (runPasses ud titles reds eam mrs am unm).1,
        p.1 ∈ eam.map Prod.fst ∧ titleOrRedirect titles reds p.2
  | [], _, _, h => h
  | _ :: mrs, am, unm, h =>
    runPasses_values mrs _ _ (stepMatchRule_values h)

/-- Reading another reference after an in-place write is unchanged. -/
theorem SetStore.read_write_ne (st : SetStore) (r q : Nat) (v : List String) (h : q ≠ r) :
    (st.write r v).read q = st.read q := by
  unfold SetStore.read SetStore.write
  simp only [List.getD, List.get?_eq_getElem?]
  rw [List.getElem?_set_ne (by omega)]

/-- Reading a valid reference after an allocation is unchanged. -/
theorem SetStore.read_alloc_lt (st : SetStore) (q : Nat) (v : List String)
    (h : q < st.cells.length) : (st.alloc v).1.read q = st.read q := by
  unfold SetStore.read SetStore.alloc
  simp only [List.getD, List.get?_eq_getElem?]
  rw [List.getElem?_append_left h]

/-- The store-level loop only writes the engine's local reference. -/
theorem runPassesSt_read_ne (ud : String → String) (titles : List String)
    (reds : List (String × String)) (eam : List (String × List String))
    (localRef : Nat) (q : Nat) (hq : q ≠ localRef) :
    ∀ (mrs : List (String × (String → String))) (am : List (String × String))
      (st : SetStore),
      ((runPassesSt ud titles reds eam localRef mrs am st).2).read q = st.read q
  | [], _, _ => rfl
  | r :: mrs, am, st => by
    simp only [runPassesSt]
    rw [runPassesSt_read_ne ud titles reds eam localRef q hq mrs]
    exact SetStore.read_write_ne _ _ _ _ hq

/-- The audit report lists one record per input question, in order. -/
theorem utm_report (pa : Question → Option String × Option String) (gtf btf : String)
    (am : List (String × String)) :
    ∀ qs : List Question,
      (unmapped_to_mapped_questions pa gtf btf am qs).match_report =
        qs.map (fun q => (q.qanta_id, (processQuestion pa am q).1))
  | [] => rfl
  | q :: qs => by
    simp only [unmapped_to_mapped_questions, List.map_cons]
    rw [utm_report pa gtf btf am qs]

/-- The returned questions are the input questions with their page
assignments, in order. -/
theorem utm_questions (pa : Question → Option String × Option String) (gtf btf : String)
    (am : List (String × String)) :
    ∀ qs : List Question,
      (unmapped_to_mapped_questions pa gtf btf am qs).questions =
        qs.map (fun q => (processQuestion pa am q).2)
  | [] => rfl
  | q :: qs => by
    simp only [unmapped_to_mapped_questions, List.map_cons]
    rw [utm_questions pa gtf btf am qs]

/-- The train-unmatched partition holds exactly the `none`-outcome
questions whose fold is a training fold, in order. -/
theorem utm_train (pa : Question → Option String × Option String) (gtf btf : String)
    (am : List (String × String)) :
    ∀ qs : List Question,
      (unmapped_to_mapped_questions pa gtf btf am qs).train_unmatched =
        (qs.filter (fun q => decide ((processQuestion pa am q).1.result = "none" ∧
          (q.fold = gtf ∨ q.fold = btf)))).map (fun q => (processQuestion pa am q).2)
  | [] => rfl
  | q :: qs => by
    simp only [unmapped_to_mapped_questions]
    rw [utm_train pa gtf btf am qs]
    by_cases h : (processQuestion pa am q).1.result = "none" ∧ (q.fold = gtf ∨ q.fold = btf)
    · rw [if_pos h, List.filter_cons_of_pos (by simpa using h), List.map_cons]
      rfl
    · rw [if_neg h, List.filter_cons_of_neg (by simpa using h)]
      rfl

/-- The test-unmatched partition holds exactly the `none`-outcome
questions whose fold is not a training fold, in order. -/
theorem utm_test (pa : Question → Option String × Option String) (gtf btf : String)
    (am : List (String × String)) :
    ∀ qs : List Question,
      (unmapped_to_mapped_questions pa gtf btf am qs).test_unmatched =
        (qs.filter (fun q => decide ((processQuestion pa am q).1.result = "none" ∧
          ¬(q.fold = gtf ∨ q.fold = btf)))).map (fun q => (processQuestion pa am q).2)
  | [] => rfl
  | q :: qs => by
    simp only [unmapped_to_mapped_questions]
    rw [utm_test pa gtf btf am qs]
    by_cases h : (processQuestion pa am q).1.result = "none" ∧ ¬(q.fold = gtf ∨ q.fold = btf)
    · rw [if_pos h, List.filter_cons_of_pos (by simpa using h), List.map_cons]
      rfl
    · rw [if_neg h, List.filter_cons_of_neg (by simpa using h)]
      rfl

/-- Outcome `none` happens exactly when both the annotated and the
automatic page are absent. -/
theorem processQuestion_none_iff (pa : Question → Option String × Option String)
    (am : List (String × String)) (q : Question) :
    (processQuestion pa am q).1.result = "none" ↔
      ((pa q).1 = none ∧ dictGet am q.answer = none) := by
  unfold processQuestion
  split <;> rename_i h1 h2
  · simp [h1, h2]
  · simp [h1, h2]
  · simp [h1, h2]
  · split <;> simp [h1, h2]

/-- In the `none` outcome the question is passed through unchanged. -/
theorem processQuestion_none_snd (pa : Question → Option String × Option String)
    (am : List (String × String)) (q : Question)
    (h1 : (pa q).1 = none) (h2 : dictGet am q.answer = none) :
    (processQuestion pa am q).2 = q := by
  unfold processQuestion
  rw [h1, h2]

/-- ASCII lower-casing of a character is idempotent. -/
theorem char_toLower_toLower (c : Char) : c.toLower.toLower = c.toLower := by
  simp only [Char.toLower]
  by_cases h : c.toNat ≥ 65 ∧ c.toNat ≤ 90
  · rw [if_pos h]
    have hv : Nat.isValidChar (c.toNat + 32) := Or.inl (by omega)
    have ht : (Char.ofNat (c.toNat + 32)).toNat = c.toNat + 32 := by
      rw [Char.ofNat, dif_pos hv]
      rfl
    rw [if_neg]
    rintro ⟨h1, h2⟩
    rw [ht] at h2
    omega
  · rw [if_neg h, if_neg h]

/-- Python lower-casing of a string is idempotent. -/
theorem pyLower_pyLower (s : String) : pyLower (pyLower s) = pyLower s := by
  refine congrArg String.mk ?_
  show (s.data.map Char.toLower).map Char.toLower = s.data.map Char.toLower
  rw [List.map_map]
  exact List.map_congr_left (fun a _ => char_toLower_toLower a)

/-- Lookup in an association list with a binding in front: later bindings
(deeper in the list) win; the front binding only answers otherwise. -/
theorem dictGet_cons (p : String × String) (m : List (String × String)) (q : String) :
    dictGet (p :: m) q =
      match dictGet m q with
      | some v => some v
      | none => if p.1 = q then some p.2 else none := by
  unfold dictGet
  rw [List.reverse_cons, List.find?_append]
  cases hf : m.reverse.find? (fun x => x.1 == q) with
  | some w => simp [hf]
  | none =>
    by_cases hk : p.1 = q
    · rw [List.find?_cons_of_pos _ (by simpa using hk)]
      simp [hf, hk]
    · rw [List.find?_cons_of_neg _ (by simpa using hk)]
      simp [hf, hk]

/-- C3: for every formatted candidate, lookup consults the eight tiers in
the fixed order exact-title, exact-redirect, Unicode-folded-title,
Unicode-folded-redirect, lower-title, lower-redirect,
lower-Unicode-folded-title, lower-Unicode-folded-redirect,
short-circuiting on the first hit; in particular a candidate that is
simultaneously an exact-title match and a lower-cased-redirect match is
mapped to the exact-title result. -/
theorem C3_lookup_priority_order (ud : String → String) (titles : List String)
    (reds : List (String × String)) (c : String) :
    lookupCandidate ud titles reds c = firstHit (tier_results ud titles reds c) ∧
    (∀ v, try_match c (exact_titles titles) = some v →
      lookupCandidate ud titles reds c = some v) := by
  refine ⟨lookupCandidate_eq_firstHit ud titles reds c, ?_⟩
  intro v hv
  rw [lookupCandidate_eq_firstHit, tier_results, hv]
  rfl

/-- C3 witness: the candidate "Paris" is an exact-title hit and also a
lower-redirect hit pointing at "France"; the lookup returns the
exact-title result. -/
theorem C3_witness :
    lookupCandidate id ["Paris"] [("paris", "France")] "Paris" = some "Paris" ∧
    try_match (pyLower "Paris") (lower_wiki_redirects [("paris", "France")]) = some "France" :=
  ⟨(C3_lookup_priority_order id ["Paris"] [("paris", "France")] "Paris").2 "Paris" (by decide),
   by decide⟩

/-- C1 counterexample: with titles containing both "(Y)" and "Y" and the
match rules "exact match" followed by "parens" (both from
`create_match_rules`), the answer "(Y)" is first mapped to "(Y)", but the
subsequent match rule overwrites the mapping to "Y": the loop iterates
over every answer, not only unresolved ones, and each hit reassigns the
key. -/
theorem C1_counterexample :
    dictGet (mapping_rules_to_answer_map id [] [("exact match", fun x => x)]
      ["(Y)", "Y"] [] ["(Y)"]).1 "(Y)" = some "(Y)" ∧
    dictGet (mapping_rules_to_answer_map id []
      [("exact match", fun x => x), ("parens", remove_parens)]
      ["(Y)", "Y"] [] ["(Y)"]).1 "(Y)" = some "Y" ∧
    ("(Y)" : String) ≠ "Y" := by decide

/-- C1 amended: once an answer string holds a binding in the answer map,
applying further match rules never removes the key, though a later
successful lookup may reassign its title; the key keeps the title of the
most recent successful lookup. -/
theorem C1_amended_key_persists (ud : String → String)
    (er : List (String × (String → List String)))
    (mrs1 mrs2 : List (String × (String → String)))
    (titles : List String) (reds : List (String × String))
    (unm : List String) (k : String)
    (h : (dictGet (mapping_rules_to_answer_map ud er mrs1 titles reds unm).1 k).isSome = true) :
    (dictGet (mapping_rules_to_answer_map ud er (mrs1 ++ mrs2) titles reds unm).1 k).isSome
      = true := by
  simp only [mapping_rules_to_answer_map] at h ⊢
  rw [runPasses_append]
  exact runPasses_keys_mono mrs2 _ _ k h

/-- C1 amended witness: the counterexample input instantiated in the
amended statement. -/
theorem C1_amended_witness :
    (dictGet (mapping_rules_to_answer_map id []
      ([("exact match", fun x => x)] ++ [("parens", remove_parens)])
      ["(Y)", "Y"] [] ["(Y)"]).1 "(Y)").isSome = true :=
  C1_amended_key_persists id [] [("exact match", fun x => x)] [("parens", remove_parens)]
    ["(Y)", "Y"] [] ["(Y)"] "(Y)" (by decide)

/-- C2: evaluation of the engine at the failing input. The answer
"A or B" expands to candidates "A or B", "A" and "B"; with titles
containing "A" and "B", the candidate "A" already hits, yet the engine
goes on to the candidate "B" and overwrites, so the final mapping is "B"
rather than the claimed first hit "A" (the `continue` at lines 70-107
skips only the remaining lookup tiers, not the remaining candidates). -/
theorem C2_continue_overwrites :
    dictGet (mapping_rules_to_answer_map id
      [("or", fun a => if a = "A or B" then ["A", "B"] else [])]
      [("exact match", fun x => x)] ["A", "B"] [] ["A or B"]).1 "A or B" = some "B" := by
  decide

/-- C4: after each match-rule pass the unresolved set is a subset of the
unresolved set before the pass and the answer map's key set only grows;
the returned unresolved set equals the initial distinct-answer population
minus the returned answer map's key set. -/
theorem C4_monotonicity_residual :
    (∀ (ud : String → String) (titles : List String) (reds : List (String × String))
      (eam : List (String × List String)) (r : String → String)
      (am : List (String × String)) (unm : List String),
      (unm.filter (fun a => (dictGet (stepMatchRule ud titles reds eam r am) a).isNone)) ⊆ unm ∧
      (∀ k, (dictGet am k).isSome = true →
        (dictGet (stepMatchRule ud titles reds eam r am) k).isSome = true)) ∧
    (∀ (ud : String → String) (er : List (String × (String → List String)))
      (mrs : List (String × (String → String))) (titles : List String)
      (reds : List (String × String)) (unm : List String) (a : String),
      a ∈ (mapping_rules_to_answer_map ud er mrs titles reds unm).2 ↔
        (a ∈ unm ∧ dictGet (mapping_rules_to_answer_map ud er mrs titles reds unm).1 a = none)) := by
  constructor
  · intro ud titles reds eam r am unm
    exact ⟨fun a ha => (List.mem_filter.mp ha).1, fun k h => stepMatchRule_keys_mono h⟩
  · intro ud er mrs titles reds unm a
    simp only [mapping_rules_to_answer_map]
    rw [runPasses_unm_mem ud titles reds (buildEam er unm.dedup) mrs [] unm.dedup
      (fun b hb => rfl) a]
    rw [List.mem_dedup]

/-- C4 witness: the pass at a concrete input keeps the existing key, and
at a concrete input with no rules the sole answer stays unresolved. -/
theorem C4_witness :
    (dictGet (stepMatchRule id ["T"] [] [("a", ["a"])] (fun x => x) [("k", "v")]) "k").isSome
      = true ∧
    "x" ∈ (mapping_rules_to_answer_map id [] [] [] [] ["x"]).2 :=
  ⟨(C4_monotonicity_residual.1 id ["T"] [] [("a", ["a"])] (fun x => x) [("k", "v")] []).2
      "k" (by decide),
   (C4_monotonicity_residual.2 id [] [] [] [] ["x"] "x").mpr ⟨by decide, by decide⟩⟩

/-- C9: the engine clones the unmapped-answers set on entry, so the
caller's set object reads back unchanged after the run. -/
theorem C9_caller_set_unchanged (ud : String → String)
    (er : List (String × (String → List String)))
    (mrs : List (String × (String → String)))
    (titles : List String) (reds : List (String × String))
    (st : SetStore) (callerRef : Nat) (h : callerRef < st.cells.length) :
    ((mapping_rules_to_answer_map_st ud er mrs titles reds st callerRef).2).read callerRef =
      st.read callerRef := by
  simp only [mapping_rules_to_answer_map_st, SetStore.alloc]
  rw [runPassesSt_read_ne ud titles reds _ st.cells.length callerRef (Nat.ne_of_lt h) mrs]
  unfold SetStore.read
  simp only [List.getD, List.get?_eq_getElem?]
  rw [List.getElem?_append_left h]

/-- C9 witness: a store with one caller cell, run through the engine. -/
theorem C9_witness :
    ((mapping_rules_to_answer_map_st id [] [("exact match", fun x => x)]
      ["Soviet Union"] [("USSR", "Soviet Union")] ⟨[["USSR"]]⟩ 0).2).read 0 =
      SetStore.read ⟨[["USSR"]]⟩ 0 :=
  C9_caller_set_unchanged id [] [("exact match", fun x => x)] ["Soviet Union"]
    [("USSR", "Soviet Union")] ⟨[["USSR"]]⟩ 0 (by decide)

/-- C10: every key of the returned answer map is one of the input
unmapped answers, and every value is a canonical title or a redirect
target of the input redirect source. -/
theorem C10_keys_and_values (ud : String → String)
    (er : List (String × (String → List String)))
    (mrs : List (String × (String → String)))
    (titles : List String) (reds : List (String × String))
    (unm : List String) (k v : String)
    (h : dictGet (mapping_rules_to_answer_map ud er mrs titles reds unm).1 k = some v) :
    k ∈ unm ∧ (v ∈ titles ∨ ∃ s, (s, v) ∈ reds) := by
  have hmem := dictGet_mem h
  simp only [mapping_rules_to_answer_map] at hmem
  have hinv := @runPasses_values ud titles reds (buildEam er unm.dedup) mrs [] unm.dedup
    (fun p hp => absurd hp (List.not_mem_nil p)) (k, v) hmem
  rcases hinv with ⟨hk, hv⟩
  rw [buildEam_fst] at hk
  exact ⟨List.mem_dedup.mp hk, hv⟩

/-- C10 witness: the answer "paris" resolved through the lower-title tier
to the canonical title "Paris". -/
theorem C10_witness :
    "paris" ∈ ["paris"] ∧
    ("Paris" ∈ ["Paris"] ∨ ∃ s, (s, "Paris") ∈ ([] : List (String × String))) :=
  C10_keys_and_values id [] [("exact match", fun x => x)] ["Paris"] [] ["paris"]
    "paris" "Paris" (by decide)

/-- C5: when the annotation lookup returns a page and the answer map
supplies a different page, the question's audit record has result
"disagree" and the question is assigned the annotated page. -/
theorem C5_disagree (pa : Question → Option String × Option String)
    (gtf btf : String) (am : List (String × String)) (qs : List Question)
    (i : Nat) (q : Question) (hq : qs[i]? = some q)
    (p1 p2 : String) (e : Option String)
    (hpa : pa q = (some p1, e)) (hauto : dictGet am q.answer = some p2) (hne : p1 ≠ p2) :
    (unmapped_to_mapped_questions pa gtf btf am qs).match_report[i]? =
      some (q.qanta_id, ⟨"disagree", e, none, some p1, some p2⟩) ∧
    (unmapped_to_mapped_questions pa gtf btf am qs).questions[i]? =
      some { q with page := some p1 } := by
  have hrec : processQuestion pa am q =
      (⟨"disagree", e, none, some p1, some p2⟩, { q with page := some p1 }) := by
    simp [processQuestion, hpa, hauto, hne]
  constructor
  · rw [utm_report, List.getElem?_map, hq]
    simp [hrec]
  · rw [utm_questions, List.getElem?_map, hq]
    simp [hrec]

/-- C5 witness: annotated "Paris" against automatic "France" yields a
"disagree" record and the annotated page. -/
theorem C5_witness :
    (unmapped_to_mapped_questions (fun _ => (some "Paris", none)) "guesstrain" "buzztrain"
      [("ans", "France")] [⟨"ans", 1, none, none, "guesstrain", "txt", none⟩]).match_report[0]? =
      some (1, ⟨"disagree", none, none, some "Paris", some "France"⟩) ∧
    (unmapped_to_mapped_questions (fun _ => (some "Paris", none)) "guesstrain" "buzztrain"
      [("ans", "France")] [⟨"ans", 1, none, none, "guesstrain", "txt", none⟩]).questions[0]? =
      some ⟨"ans", 1, none, none, "guesstrain", "txt", some "Paris"⟩ :=
  C5_disagree (fun _ => (some "Paris", none)) "guesstrain" "buzztrain" [("ans", "France")]
    [⟨"ans", 1, none, none, "guesstrain", "txt", none⟩] 0
    ⟨"ans", 1, none, none, "guesstrain", "txt", none⟩ rfl "Paris" "France" none rfl
    (by decide) (by decide)

/-- C6: with distinct question identifiers the reconciliation produces
exactly one audit record per question, and a question with neither an
annotated nor an automatic page lands in exactly one of
train-unmatched/test-unmatched, determined solely by whether its fold is
a training fold. -/
theorem C6_reconciliation_completeness (pa : Question → Option String × Option String)
    (gtf btf : String) (am : List (String × String)) (qs : List Question)
    (hnd : (qs.map (fun q => q.qanta_id)).Nodup) :
    (unmapped_to_mapped_questions pa gtf btf am qs).match_report.length = qs.length ∧
    (∀ q ∈ qs, ((unmapped_to_mapped_questions pa gtf btf am qs).match_report.countP
      (fun en => en.1 == q.qanta_id)) = 1) ∧
    (∀ q ∈ qs, (pa q).1 = none → dictGet am q.answer = none →
      ((q ∈ (unmapped_to_mapped_questions pa gtf btf am qs).train_unmatched ↔
        (q.fold = gtf ∨ q.fold = btf)) ∧
       (q ∈ (unmapped_to_mapped_questions pa gtf btf am qs).test_unmatched ↔
        ¬(q.fold = gtf ∨ q.fold = btf)))) := by
  refine ⟨?_, ?_, ?_⟩
  · rw [utm_report]
    simp
  · intro q hq
    have hcount := List.count_eq_one_of_mem hnd
      (List.mem_map_of_mem (fun q2 => q2.qanta_id) hq)
    rw [utm_report, List.countP_map]
    simpa [List.count, List.countP_map, Function.comp_def] using hcount
  · intro q hq h1 h2
    have hres : (processQuestion pa am q).1.result = "none" :=
      (processQuestion_none_iff pa am q).mpr ⟨h1, h2⟩
    have hsnd : (processQuestion pa am q).2 = q := processQuestion_none_snd pa am q h1 h2
    constructor
    · rw [utm_train]
      constructor
      · intro hmem
        rcases List.mem_map.mp hmem with ⟨q2, hq2, hfq⟩
        rcases List.mem_filter.mp hq2 with ⟨hq2mem, hcond⟩
        rcases of_decide_eq_true hcond with ⟨hres2, hfold2⟩
        have hq2q : q2 = q := by
          rw [← hfq]
          exact (processQuestion_none_snd pa am q2
            ((processQuestion_none_iff pa am q2).mp hres2).1
            ((processQuestion_none_iff pa am q2).mp hres2).2).symm
        rw [← hq2q]
        exact hfold2
      · intro hfold
        refine List.mem_map.mpr ⟨q, List.mem_filter.mpr ⟨hq, decide_eq_true ⟨hres, hfold⟩⟩, hsnd⟩
    · rw [utm_test]
      constructor
      · intro hmem
        rcases List.mem_map.mp hmem with ⟨q2, hq2, hfq⟩
        rcases List.mem_filter.mp hq2 with ⟨hq2mem, hcond⟩
        rcases of_decide_eq_true hcond with ⟨hres2, hfold2⟩
        have hq2q : q2 = q := by
          rw [← hfq]
          exact (processQuestion_none_snd pa am q2
            ((processQuestion_none_iff pa am q2).mp hres2).1
            ((processQuestion_none_iff pa am q2).mp hres2).2).symm
        rw [← hq2q]
        exact hfold2
      · intro hfold
        refine List.mem_map.mpr ⟨q, List.mem_filter.mpr ⟨hq, decide_eq_true ⟨hres, hfold⟩⟩, hsnd⟩

/-- C6 witness: a single unmatched question with a non-training fold
gets one audit record and lands in the test-unmatched partition. -/
theorem C6_witness :
    (unmapped_to_mapped_questions (fun _ => (none, none)) "guesstrain" "buzztrain" []
      [⟨"a", 7, none, none, "test", "t", none⟩]).match_report.length = 1 ∧
    (⟨"a", 7, none, none, "test", "t", none⟩ : Question) ∈
      (unmapped_to_mapped_questions (fun _ => (none, none)) "guesstrain" "buzztrain" []
        [⟨"a", 7, none, none, "test", "t", none⟩]).test_unmatched := by
  have h := C6_reconciliation_completeness (fun _ => (none, none)) "guesstrain" "buzztrain" []
    [⟨"a", 7, none, none, "test", "t", none⟩] (by decide)
  refine ⟨h.1, ?_⟩
  exact ((h.2.2 ⟨"a", 7, none, none, "test", "t", none⟩ (by decide) rfl rfl).2).mpr (by decide)

/-- C7 counterexample: for the answer "Paris" the rule produces
"the paris" (the lower-cased answer prefixed), not the claimed original
answer prefixed with "the ". -/
theorem C7_counterexample :
    the_rule "Paris" = ["the paris"] ∧ the_rule "Paris" ≠ ["the Paris"] := by decide

/-- C7 amended: the-toggle produces the lower-cased answer with all
occurrences of "the" removed when the lower-cased answer contains "the",
and otherwise the lower-cased answer prefixed with "the ". -/
theorem C7_amended_the_toggle (ans : String) :
    the_rule ans = the_rule_amended_spec ans := by
  simp only [the_rule, the_rule_amended_spec]
  by_cases h : hasSub "the".data (pyLower ans).data = true
  · simp [h]
  · simp [h, pyLower_pyLower]

/-- Every row whose target is a canonical title ends as a key of the
retained lookup. -/
theorem read_wiki_redirects_keeps (wikiTitles : List String) :
    ∀ (rows : List (String × String)) (p : String × String), p ∈ rows → p.2 ∈ wikiTitles →
      ∃ v, dictGet (read_wiki_redirects wikiTitles rows).1 p.1 = some v
  | [], p, hp, _ => absurd hp (List.not_mem_nil p)
  | (s, t) :: rest, p, hp, hT => by
    simp only [read_wiki_redirects]
    rcases List.mem_cons.mp hp with hphead | hptail
    · subst hphead
      rw [if_pos hT]
      rw [dictGet_cons]
      cases hdr : dictGet (read_wiki_redirects wikiTitles rest).1 s with
      | some w => exact ⟨w, by simp [hdr]⟩
      | none => exact ⟨t, by simp [hdr]⟩
    · rcases read_wiki_redirects_keeps wikiTitles rest p hptail hT with ⟨v, hv⟩
      by_cases ht : t ∈ wikiTitles
      · rw [if_pos ht, dictGet_cons, hv]
        exact ⟨v, rfl⟩
      · rw [if_neg ht]
        exact ⟨v, hv⟩

/-- Every binding of the retained lookup is one of the rows and its
target is a canonical title. -/
theorem read_wiki_redirects_sound (wikiTitles : List String) :
    ∀ (rows : List (String × String)) (p : String × String),
      p ∈ (read_wiki_redirects wikiTitles rows).1 → p ∈ rows ∧ p.2 ∈ wikiTitles
  | [], p, hp => absurd hp (List.not_mem_nil p)
  | (s, t) :: rest, p, hp => by
    simp only [read_wiki_redirects] at hp
    by_cases ht : t ∈ wikiTitles
    · rw [if_pos ht] at hp
      rcases List.mem_cons.mp hp with hphead | hptail
      · subst hphead
        exact ⟨List.mem_cons_self _ _, ht⟩
      · rcases read_wiki_redirects_sound wikiTitles rest p hptail with ⟨h1, h2⟩
        exact ⟨List.mem_cons_of_mem _ h1, h2⟩
    · rw [if_neg ht] at hp
      rcases read_wiki_redirects_sound wikiTitles rest p hp with ⟨h1, h2⟩
      exact ⟨List.mem_cons_of_mem _ h1, h2⟩

/-- The logged counter counts exactly the dropped rows. -/
theorem read_wiki_redirects_count (wikiTitles : List String) :
    ∀ rows : List (String × String),
      (read_wiki_redirects wikiTitles rows).2 =
        (rows.filter (fun p => decide (¬p.2 ∈ wikiTitles))).length
  | [] => rfl
  | (s, t) :: rest => by
    simp only [read_wiki_redirects]
    by_cases ht : t ∈ wikiTitles
    · rw [if_pos ht, List.filter_cons_of_neg (by simp [ht])]
      exact read_wiki_redirects_count wikiTitles rest
    · rw [if_neg ht, List.filter_cons_of_pos (by simp [ht]), List.length_cons]
      rw [read_wiki_redirects_count wikiTitles rest]

/-- C8: the redirect reader retains exactly the rows whose target is in
the canonical title set; rows with an absent target are excluded from
the returned lookup and counted, and the reader returns normally (the
exclusion is not an error). -/
theorem C8_redirect_filtering (wikiTitles : List String) (rows : List (String × String)) :
    (∀ p ∈ rows, p.2 ∈ wikiTitles →
      ∃ v, dictGet (read_wiki_redirects wikiTitles rows).1 p.1 = some v) ∧
    (∀ p ∈ (read_wiki_redirects wikiTitles rows).1, p ∈ rows ∧ p.2 ∈ wikiTitles) ∧
    (read_wiki_redirects wikiTitles rows).2 =
      (rows.filter (fun p => decide (¬p.2 ∈ wikiTitles))).length :=
  ⟨fun p hp hT => read_wiki_redirects_keeps wikiTitles rows p hp hT,
   fun p hp => read_wiki_redirects_sound wikiTitles rows p hp,
   read_wiki_redirects_count wikiTitles rows⟩

/-- C8 witness: one valid redirect is retained, one row with an unknown
target is dropped and counted. -/
theorem C8_witness :
    (∃ v, dictGet (read_wiki_redirects ["Soviet Union"]
      [("USSR", "Soviet Union"), ("CCCP", "Mars")]).1 "USSR" = some v) ∧
    (read_wiki_redirects ["Soviet Union"] [("USSR", "Soviet Union"), ("CCCP", "Mars")]).2 = 1 :=
  ⟨(C8_redirect_filtering ["Soviet Union"] [("USSR", "Soviet Union"), ("CCCP", "Mars")]).1
      ("USSR", "Soviet Union") (by decide) (by decide),
   ((C8_redirect_filtering ["Soviet Union"] [("USSR", "Soviet Union"), ("CCCP", "Mars")]).2.2).trans
      (by decide)⟩
